import Mathlib

/-!
Verification of the NIST control-mapping repository.

This file is a shallow embedding of the two Python source files
`util/mappingsToHeatmaps.py` and `src/list_mappings.py`: STIX objects and
relationships become Lean structures, the in-memory stores become lists,
Python dicts become insertion-ordered association lists, and fallible code
(Python exceptions / print-and-exit) becomes `Except`.
-/

/-- A scalar Python value as it occurs in STIX custom properties:
a string, an integer, or a boolean. -/
inductive Scalar where
  | str (s : String)
  | int (n : Int)
  | bool (b : Bool)
deriving DecidableEq

/-- A STIX custom-property value: a scalar or a list of scalars. -/
inductive PVal where
  | scalar (v : Scalar)
  | list (l : List Scalar)
deriving DecidableEq

/-- Python truthiness of a property value: `""`, `0`, `False` and `[]` are falsy. -/
def truthy : PVal → Bool
  | .scalar (.str s) => s ≠ ""
  | .scalar (.int n) => n ≠ 0
  | .scalar (.bool b) => b
  | .list l => !l.isEmpty

/-- A STIX domain object (a control or a technique).  `external_id` models
`external_references[0]["external_id"]`, the canonical identifier the code
always reads (objects are expected to have at least one external reference);
`props` holds the custom `x_mitre_` properties. -/
structure SDO where
  id : String
  typ : String
  name : String
  external_id : String
  props : List (String × PVal)
deriving DecidableEq

/-- A STIX relationship record (a mapping edge from a control to a technique). -/
structure Relationship where
  source_ref : String
  target_ref : String
  relationship_type : String
deriving DecidableEq

/-- Model of `stix2.MemoryStore.get`: first object whose `id` matches, if any. -/
def storeGet (objs : List SDO) (ref : String) : Option SDO :=
  objs.find? (fun o => o.id = ref)

/-- Model of `query([Filter("type", "=", "course-of-action")])`. -/
def queryCoA (objs : List SDO) : List SDO :=
  objs.filter (fun o => o.typ = "course-of-action")

/-- Model of `control.get(x_mitre)` / `"x_mitre_family" in control`:
look a custom property up by name. -/
def lookupProp (p : String) (c : SDO) : Option PVal :=
  (c.props.find? (fun kv => kv.1 = p)).map (fun kv => kv.2)

/-- Lexicographic ordering on character lists by code point, the comparison
Python uses on strings. -/
def listCharLeb : List Char → List Char → Bool
  | [], _ => true
  | _ :: _, [] => false
  | a :: as, b :: bs => if a = b then listCharLeb as bs else decide (a < b)

/-- Ordinary (code-point lexicographic) string comparison, as in Python. -/
def strLe (a b : String) : Prop :=
  listCharLeb a.data b.data = true

instance : DecidableRel strLe :=
  fun a b => inferInstanceAs (Decidable (listCharLeb a.data b.data = true))

/-- Python `sorted` on a list of strings (ascending lexicographic order;
`sorted` is a stable sort, modelled by the stable `insertionSort`). -/
def sortStrings (l : List String) : List String :=
  l.insertionSort strLe

/-- A scored technique entry of a layer (`technique` in `mappingsToHeatmaps.py`). -/
structure Technique where
  techniqueID : String
  score : Nat
  comment : String
deriving DecidableEq

/-- Embedding of `technique(attackID, mapped_controls)`:
score is the count of mapped controls, the comment lists them sorted. -/
def technique (attackID : String) (mapped_controls : List String) : Technique :=
  { techniqueID := attackID
    score := mapped_controls.length
    comment := "Mitigated by " ++ ", ".intercalate (sortStrings mapped_controls) }

/-- The gradient block of a layer. -/
structure Gradient where
  colors : List String
  minValue : Nat
  maxValue : Nat
deriving DecidableEq

/-- A Navigator layer document. -/
structure Layer where
  name : String
  version : String
  sorting : Nat
  description : String
  domain : String
  techniques : List Technique
  gradient : Gradient
deriving DecidableEq

/-- Embedding of `layer(name, description, domain, techniques)`:
`min(...) if len(techniques) > 0 else 0` is `min?` with default `0`, and
likewise for `max` with default `100`. -/
def layer (name description domain : String) (techniques : List Technique) : Layer :=
  let scores := techniques.map (fun t => t.score)
  let min_mappings := match scores.min? with | some m => m | none => 0
  let max_mappings := match scores.max? with | some m => m | none => 100
  if max_mappings - min_mappings = 0 then
    { name := name, version := "3.0", sorting := 3, description := description
      domain := domain, techniques := techniques
      gradient := { colors := ["#ffffff", "#66b1ff"], minValue := 0, maxValue := max_mappings } }
  else
    { name := name, version := "3.0", sorting := 3, description := description
      domain := domain, techniques := techniques
      gradient := { colors := ["#ACD0E6", "#08336E"], minValue := min_mappings, maxValue := max_mappings } }

/-- Errors on which the heatmap script aborts (uncaught Python exceptions). -/
inductive HeatmapError where
  | malformedIdentifier (id : String)
  | unresolvedTechnique (ref : String)
deriving DecidableEq

/-- An insertion-ordered Python dict whose values are lists, as an association
list: `dictAdd d k a` appends `a` to the list at key `k`, creating the key at
the end if absent (`techniqueToMappedControls[attackID].append(controlID)`). -/
def dictAdd [DecidableEq κ] : List (κ × List α) → κ → α → List (κ × List α)
  | [], k, a => [(k, [a])]
  | (k', v) :: rest, k, a =>
    if k' = k then (k', v ++ [a]) :: rest else (k', v) :: dictAdd rest k a

/-- Lookup in an insertion-ordered dict of lists, empty when absent. -/
def dictGet [DecidableEq κ] : List (κ × List α) → κ → List α
  | [], _ => []
  | (k', v) :: rest, k => if k' = k then v else dictGet rest k

/-- One loop iteration of `toTechniquelist`: skip mappings whose `source_ref`
is not in the controls store; an unresolvable `target_ref` is a fatal error
(the Python dereferences `attackdata.get(...)` without a guard and crashes). -/
def stepMapping (controls attackdata : List SDO) (d : List (String × List String))
    (m : Relationship) : Except HeatmapError (List (String × List String)) :=
  match storeGet controls m.source_ref with
  | none => .ok d
  | some c =>
    match storeGet attackdata m.target_ref with
    | none => .error (.unresolvedTechnique m.target_ref)
    | some t => .ok (dictAdd d t.external_id c.external_id)

/-- Embedding of `toTechniquelist(controls, mappings, attackdata)`: accumulate
contributing control ids per technique id, then deduplicate
(`list(set(...))`, modelled by `List.dedup` — only the cardinality and the
sorted rendering of the set are observable in the output) and build the
technique entries in dict insertion order. -/
def toTechniquelist (controls : List SDO) (mappings : List Relationship)
    (attackdata : List SDO) : Except HeatmapError (List Technique) := do
  let d ← mappings.foldlM (stepMapping controls attackdata) []
  return d.map (fun kv => technique kv.1 kv.2.dedup)

/-- Python `\w` on the ASCII identifiers in scope: letters, digits, underscore. -/
def isWordChar (c : Char) : Bool :=
  c.isAlphanum || c = '_'

/-- Attempt to match the regular expression `(\w+)-.*` at the start of `l`:
a maximal nonempty run of word characters followed by a hyphen.  Returns the
captured group. -/
def matchFamilyAt (l : List Char) : Option (List Char) :=
  match l.dropWhile isWordChar with
  | '-' :: _ => if (l.takeWhile isWordChar).isEmpty then none else some (l.takeWhile isWordChar)
  | _ => none

/-- Model of `re.search` for the pattern `(\w+)-.*`: try every start position
left to right (positions inside a failed word run also fail, since a suffix of
the run is followed by the same non-hyphen character). -/
def searchFamily : List Char → Option (List Char)
  | [] => none
  | c :: cs =>
    match matchFamilyAt (c :: cs) with
    | some run => some run
    | none => searchFamily cs

/-- Embedding of `idToFamily.search(external_id).groups()[0]`: when the id
does not match the pattern, `search` returns `None` and the Python crashes
with an uncaught exception — the spec's fatal MalformedIdentifier error. -/
def familyOf (id : String) : Except HeatmapError String :=
  match searchFamily id.data with
  | some run => .ok (String.mk run)
  | none => .error (.malformedIdentifier id)

/-- Python `str()` of a scalar value. -/
def scalarToString : Scalar → String
  | .str s => s
  | .int n => toString n
  | .bool b => if b then "True" else "False"

/-- Python `str()` of a property value (list rendering approximated; only
scalar values reach string position in the code paths under study). -/
def pvalToString : PVal → String
  | .scalar v => scalarToString v
  | .list l => "[" ++ ", ".intercalate (l.map scalarToString) ++ "]"

/-- Dict assignment `d[k] = v` on a dict of plain values: overwrite the
existing entry or insert a new key at the end. -/
def dictSet : List (String × String) → String → String → List (String × String)
  | [], k, v => [(k, v)]
  | (k', v') :: rest, k, v =>
    if k' = k then (k', v) :: rest else (k', v') :: dictSet rest k v

/-- Dict lookup with a default (the code only looks keys up that were set). -/
def dictGetD (d : List (String × String)) (k dflt : String) : String :=
  match d.find? (fun kv => kv.1 = k) with
  | some kv => kv.2
  | none => dflt

/-- The two family tables built by `getFrameworkOverviewLayers`:
`familyIDToControls` (insertion-ordered dict of lists) and `familyIDToName`
(overwritten on every control of the family, so the last one wins). -/
structure FamilyTables where
  familyIDToControls : List (String × List SDO)
  familyIDToName : List (String × String)
deriving DecidableEq

/-- One iteration of the family-grouping loop: extract the family id from the
control's external id (fatal on mismatch), append the control to its family,
and set the family's display name (`x_mitre_family` if present, else the id). -/
def stepFamily (t : FamilyTables) (c : SDO) : Except HeatmapError FamilyTables := do
  let fid ← familyOf c.external_id
  let famName :=
    match lookupProp "x_mitre_family" c with
    | some v => pvalToString v
    | none => fid
  return { familyIDToControls := dictAdd t.familyIDToControls fid c
           familyIDToName := dictSet t.familyIDToName fid famName }

/-- Embedding of the family-grouping loop of `getFrameworkOverviewLayers`. -/
def buildFamilies (coa : List SDO) : Except HeatmapError FamilyTables :=
  coa.foldlM stepFamily { familyIDToControls := [], familyIDToName := [] }

/-- A planned output layer: relative output path plus the layer document. -/
structure OutLayer where
  outfile : String
  layer : Layer
deriving DecidableEq

/-- The per-control loop nested in the family loop: one layer per control of
the family whose technique list is non-empty. -/
def controlLayers (mappings : List Relationship) (attackdata : List SDO)
    (domain frameworkname famName : String) :
    List SDO → Except HeatmapError (List OutLayer)
  | [] => .ok []
  | c :: cs => do
    let techs ← toTechniquelist [c] mappings attackdata
    let tail ← controlLayers mappings attackdata domain frameworkname famName cs
    if techs.length > 0 then
      .ok ({ outfile := "by family/" ++ famName ++ "/" ++ (c.external_id.replace " " "_") ++ ".json"
             layer := layer (c.external_id ++ " mappings")
               (frameworkname ++ " " ++ c.external_id ++ " mappings") domain techs } :: tail)
    else
      .ok tail

/-- The family loop of `getFrameworkOverviewLayers`: for each family whose
technique list is non-empty, a family overview layer followed by the layers
of its individual controls. -/
def familyLayers (mappings : List Relationship) (attackdata : List SDO)
    (domain frameworkname : String) (names : List (String × String)) :
    List (String × List SDO) → Except HeatmapError (List OutLayer)
  | [] => .ok []
  | (fid, fctrls) :: rest => do
    let techs ← toTechniquelist fctrls mappings attackdata
    let tail ← familyLayers mappings attackdata domain frameworkname names rest
    if techs.length > 0 then do
      let ctrlLs ← controlLayers mappings attackdata domain frameworkname
        (dictGetD names fid fid) fctrls
      .ok (({ outfile := "by family/" ++ dictGetD names fid fid ++ "/" ++ fid ++ "-overview.json"
              layer := layer (dictGetD names fid fid ++ " overview")
                (frameworkname ++ " heatmap for controls in the " ++ dictGetD names fid fid ++
                  " family, where scores are the number of associated controls")
                domain techs } :: ctrlLs) ++ tail)
    else
      .ok tail

/-- Embedding of `getFrameworkOverviewLayers`: the global overview layer is
placed in the output list unconditionally, before the guarded family and
per-control layers. -/
def getFrameworkOverviewLayers (controls : List SDO) (mappings : List Relationship)
    (attackdata : List SDO) (domain frameworkname : String) :
    Except HeatmapError (List OutLayer) := do
  let tables ← buildFamilies (queryCoA controls)
  let overviewTechs ← toTechniquelist controls mappings attackdata
  let rest ← familyLayers mappings attackdata domain frameworkname
    tables.familyIDToName tables.familyIDToControls
  return { outfile := frameworkname ++ "-overview.json"
           layer := layer (frameworkname ++ " overview")
             (frameworkname ++
               " heatmap overview of control mappings, where scores are the number of associated controls")
             domain overviewTechs } :: rest

/-- The partition keys a control contributes to for a given property: none
when the property is missing or its value falsy, each list element when the
value is a (truthy) list, and the scalar itself otherwise. -/
def controlKeys (x_mitre : String) (c : SDO) : List Scalar :=
  match lookupProp x_mitre c with
  | none => []
  | some v =>
    if truthy v then
      match v with
      | .list l => l
      | .scalar s => [s]
    else []

/-- Add one control to the property dict, one `addToDict` call per key. -/
def addControlToGroups (x_mitre : String) (d : List (Scalar × List SDO))
    (c : SDO) : List (Scalar × List SDO) :=
  (controlKeys x_mitre c).foldl (fun d k => dictAdd d k c) d

/-- Embedding of the grouping loop of `getLayersByProperty`. -/
def groupControlsByProperty (coa : List SDO) (x_mitre : String) :
    List (Scalar × List SDO) :=
  coa.foldl (addControlToGroups x_mitre) []

/-- The per-partition loop of `getLayersByProperty`: one layer per property
value whose technique list is non-empty. -/
def propLayers (mappings : List Relationship) (attackdata : List SDO)
    (domain propertyname : String) (isListType : Bool) :
    List (Scalar × List SDO) → Except HeatmapError (List OutLayer)
  | [] => .ok []
  | (v, cs) :: rest => do
    let techs ← toTechniquelist cs mappings attackdata
    let tail ← propLayers mappings attackdata domain propertyname isListType rest
    if techs.length > 0 then
      .ok ({ outfile := "by " ++ propertyname ++ "/" ++ scalarToString v ++ ".json"
             layer := layer (propertyname ++ "=" ++ scalarToString v)
               ("techniques where the " ++ propertyname ++ " of associated controls " ++
                 (if isListType then "includes" else "is") ++ " " ++ scalarToString v)
               domain techs } :: tail)
    else
      .ok tail

/-- Embedding of `getLayersByProperty`. -/
def getLayersByProperty (controls : List SDO) (mappings : List Relationship)
    (attackdata : List SDO) (domain frameworkname x_mitre : String) :
    Except HeatmapError (List OutLayer) :=
  let propertyname := (x_mitre.splitOn "x_mitre_").getD 1 ""
  let coa := queryCoA controls
  let isListType := coa.any (fun c =>
    match lookupProp x_mitre c with
    | some (.list l) => !l.isEmpty
    | _ => false)
  let _ := frameworkname
  propLayers mappings attackdata domain propertyname isListType
    (groupControlsByProperty coa x_mitre)

/-- A row of the tabular mapping report of `list_mappings.py`. -/
structure Row where
  control_id : String
  control_name : String
  mapping_type : String
  technique_id : String
  technique_name : String
deriving DecidableEq

/-- Errors on which `list_mappings.py` prints and exits. -/
inductive TableError where
  | unresolvedControl (ref : String)
  | unresolvedTechnique (ref : String)
deriving DecidableEq

/-- Model of `Bundle.get`: every object of the bundle with the given id. -/
def bundleGet (objs : List SDO) (ref : String) : List SDO :=
  objs.filter (fun o => o.id = ref)

/-- One iteration of the row-building loop of `mappings_to_df`: resolve the
mapping's endpoints, aborting the whole run (print-and-exit, identifying the
missing id and the store searched) when either lookup fails. -/
def rowOfMapping (attack controls : List SDO) (m : Relationship) :
    Except TableError Row :=
  match bundleGet controls m.source_ref with
  | [] => .error (.unresolvedControl m.source_ref)
  | c :: _ =>
    match bundleGet attack m.target_ref with
    | [] => .error (.unresolvedTechnique m.target_ref)
    | t :: _ =>
      .ok { control_id := c.external_id, control_name := c.name
            mapping_type := m.relationship_type
            technique_id := t.external_id, technique_name := t.name }

/-- The sort key comparison of
`sort_values(['Control ID', 'Technique ID'], ascending=[True, True])`:
lexicographic by control external id, then technique external id, under
ordinary string comparison. -/
def rowLeb (a b : Row) : Bool :=
  if a.control_id = b.control_id then
    listCharLeb a.technique_id.data b.technique_id.data
  else
    listCharLeb a.control_id.data b.control_id.data

/-- The row ordering as a decidable relation. -/
def rowLE (a b : Row) : Prop :=
  rowLeb a b = true

instance : DecidableRel rowLE :=
  fun a b => inferInstanceAs (Decidable (rowLeb a b = true))

/-- The sorting step of `mappings_to_df`: on several columns pandas performs a
stable lexicographic sort (`numpy.lexsort`), modelled by the stable
`insertionSort`. -/
def sortRows (rows : List Row) : List Row :=
  rows.insertionSort rowLE

/-- Embedding of `mappings_to_df`: one row per mapping, in input order, then
the stable sort by (control id, technique id). -/
def mappings_to_df (attack controls : List SDO) (mappings : List Relationship) :
    Except TableError (List Row) := do
  let rows ← mappings.mapM (rowOfMapping attack controls)
  return sortRows rows

/-- Controls store of the spec's end-to-end example: `AC-1` and `AC-2`. -/
def exControls : List SDO :=
  [ { id := "course-of-action--1", typ := "course-of-action", name := "control one"
      external_id := "AC-1", props := [] }
  , { id := "course-of-action--2", typ := "course-of-action", name := "control two"
      external_id := "AC-2", props := [] } ]

/-- Techniques store of the spec's end-to-end example: `T1` and `T2`. -/
def exAttack : List SDO :=
  [ { id := "attack-pattern--1", typ := "attack-pattern", name := "technique one"
      external_id := "T1", props := [] }
  , { id := "attack-pattern--2", typ := "attack-pattern", name := "technique two"
      external_id := "T2", props := [] } ]

/-- Mappings of the spec's end-to-end example: AC-1→T1, AC-2→T1, AC-1→T2. -/
def exMappings : List Relationship :=
  [ { source_ref := "course-of-action--1", target_ref := "attack-pattern--1"
      relationship_type := "mitigates" }
  , { source_ref := "course-of-action--2", target_ref := "attack-pattern--1"
      relationship_type := "mitigates" }
  , { source_ref := "course-of-action--1", target_ref := "attack-pattern--2"
      relationship_type := "mitigates" } ]

/-- C1: for controls {AC-1, AC-2}, techniques {T1, T2} and mappings
AC-1→T1, AC-2→T1, AC-1→T2, the pipeline `toTechniquelist` then `layer`
produces an overview layer containing T1 with score 2 and comment listing
AC-1, AC-2, and T2 with score 1 and comment listing AC-1, with gradient
minValue 1, maxValue 2 and the intensity color pair. -/
theorem overview_layer_end_to_end :
    (toTechniquelist exControls exMappings exAttack).map
        (layer "nist800-53-r4 overview" "overview of control mappings" "enterprise-attack")
      = .ok
        { name := "nist800-53-r4 overview", version := "3.0", sorting := 3
          description := "overview of control mappings", domain := "enterprise-attack"
          techniques :=
            [ { techniqueID := "T1", score := 2, comment := "Mitigated by AC-1, AC-2" }
            , { techniqueID := "T2", score := 1, comment := "Mitigated by AC-1" } ]
          gradient := { colors := ["#ACD0E6", "#08336E"], minValue := 1, maxValue := 2 } } := by
  rfl

/-- A control whose grouping property is list-valued. -/
def exListControl : SDO :=
  { id := "course-of-action--10", typ := "course-of-action", name := "list-valued control"
    external_id := "XX-1", props := [("x_mitre_impact", PVal.list [Scalar.str "a", Scalar.str "b"])] }

/-- A control whose grouping property is a scalar. -/
def exScalarControl : SDO :=
  { id := "course-of-action--11", typ := "course-of-action", name := "scalar-valued control"
    external_id := "XX-2", props := [("x_mitre_impact", PVal.scalar (Scalar.str "x"))] }

/-- A control that does not define the grouping property. -/
def exNoPropControl : SDO :=
  { id := "course-of-action--12", typ := "course-of-action", name := "property-free control"
    external_id := "XX-3", props := [] }

/-- A control whose grouping property has the falsy value `0`. -/
def exFalsyControl : SDO :=
  { id := "course-of-action--13", typ := "course-of-action", name := "falsy-valued control"
    external_id := "XX-4", props := [("x_mitre_impact", PVal.scalar (Scalar.int 0))] }

/-- Pointwise membership equivalence of two lists: the observable content of
a Python set accumulated as a list. -/
def MemEqLists (l₁ l₂ : List String) : Prop :=
  ∀ x, x ∈ l₁ ↔ x ∈ l₂

/-- Two technique dicts with the same keys in the same order whose per-key
control-id lists are membership-equivalent (they denote the same sets). -/
def DictR : List (String × List String) → List (String × List String) → Prop
  | [], [] => True
  | (k₁, v₁) :: r₁, (k₂, v₂) :: r₂ => k₁ = k₂ ∧ MemEqLists v₁ v₂ ∧ DictR r₁ r₂
  | _, _ => False

theorem listCharLeb_refl (l : List Char) : listCharLeb l l = true := by
  induction l with
  | nil => rfl
  | cons c cs ih => simp [listCharLeb, ih]

theorem listCharLeb_total (a b : List Char) :
    listCharLeb a b = true ∨ listCharLeb b a = true := by
  induction a generalizing b with
  | nil => exact Or.inl rfl
  | cons x xs ih =>
    cases b with
    | nil => exact Or.inr rfl
    | cons y ys =>
      by_cases hxy : x = y
      · subst hxy
        simpa [listCharLeb] using ih ys
      · rcases lt_or_gt_of_ne hxy with h | h
        · exact Or.inl (by simp [listCharLeb, hxy, h])
        · exact Or.inr (by simp [listCharLeb, Ne.symm hxy, h])

theorem listCharLeb_trans (a b c : List Char) (hab : listCharLeb a b = true)
    (hbc : listCharLeb b c = true) : listCharLeb a c = true := by
  induction a generalizing b c with
  | nil => rfl
  | cons x xs ih =>
    cases b with
    | nil => simp [listCharLeb] at hab
    | cons y ys =>
      cases c with
      | nil => simp [listCharLeb] at hbc
      | cons z zs =>
        by_cases hxy : x = y <;> by_cases hyz : y = z
        · subst hxy; subst hyz
          simp only [listCharLeb, if_pos rfl] at hab hbc ⊢
          exact ih ys zs hab hbc
        · subst hxy
          simp only [listCharLeb, if_pos rfl, if_neg hyz] at hab hbc ⊢
          have hlt : x < z := of_decide_eq_true hbc
          simp [if_neg (ne_of_lt hlt), hlt]
        · subst hyz
          simp only [listCharLeb, if_neg hxy] at hab ⊢
          have hlt : x < y := of_decide_eq_true hab
          simp [if_neg (ne_of_lt hlt), hlt]
        · simp only [listCharLeb, if_neg hxy, if_neg hyz] at hab hbc ⊢
          have h₁ : x < y := of_decide_eq_true hab
          have h₂ : y < z := of_decide_eq_true hbc
          have hlt : x < z := lt_trans h₁ h₂
          simp [if_neg (ne_of_lt hlt), hlt]

theorem listCharLeb_antisymm (a b : List Char) (hab : listCharLeb a b = true)
    (hba : listCharLeb b a = true) : a = b := by
  induction a generalizing b with
  | nil =>
    cases b with
    | nil => rfl
    | cons y ys => simp [listCharLeb] at hba
  | cons x xs ih =>
    cases b with
    | nil => simp [listCharLeb] at hab
    | cons y ys =>
      by_cases hxy : x = y
      · subst hxy
        simp only [listCharLeb, if_pos rfl] at hab hba
        rw [ih ys hab hba]
      · simp only [listCharLeb, if_neg hxy, if_neg (Ne.symm hxy)] at hab hba
        exact absurd (of_decide_eq_true hba) (lt_asymm (of_decide_eq_true hab))

theorem strLe_refl (a : String) : strLe a a :=
  listCharLeb_refl a.data

theorem strLe_total (a b : String) : strLe a b ∨ strLe b a :=
  listCharLeb_total a.data b.data

theorem strLe_trans (a b c : String) (hab : strLe a b) (hbc : strLe b c) : strLe a c :=
  listCharLeb_trans a.data b.data c.data hab hbc

theorem strLe_antisymm (a b : String) (hab : strLe a b) (hba : strLe b a) : a = b := by
  cases a with
  | mk da =>
    cases b with
    | mk db => exact congrArg String.mk (listCharLeb_antisymm da db hab hba)

theorem sortStrings_sorted (l : List String) : (sortStrings l).Pairwise strLe :=
  @List.sorted_insertionSort String strLe _ ⟨strLe_total⟩ ⟨strLe_trans⟩ l

theorem sortStrings_perm (l : List String) : List.Perm (sortStrings l) l :=
  List.perm_insertionSort _ _

theorem layer_gradient_eq (name description domain : String)
    (techniques : List Technique) (m M : Nat)
    (hmin : (techniques.map (fun t => t.score)).min? = some m)
    (hmax : (techniques.map (fun t => t.score)).max? = some M) :
    (layer name description domain techniques).gradient =
      if M - m = 0 then
        { colors := ["#ffffff", "#66b1ff"], minValue := 0, maxValue := M }
      else
        { colors := ["#ACD0E6", "#08336E"], minValue := m, maxValue := M } := by
  simp only [layer, hmin, hmax]
  split <;> rfl

/-- C2: for every technique list passed to `layer`: a non-empty list of
uniform score yields gradient minValue 0 and the neutral color pair; a list
with non-uniform scores yields minValue/maxValue equal to the observed
min/max score with the intensity colors; an empty list defaults minScore to 0
and maxScore to 100. -/
theorem layer_gradient_spec (name description domain : String)
    (techniques : List Technique) :
    (techniques ≠ [] →
        (∀ t₁ ∈ techniques, ∀ t₂ ∈ techniques, t₁.score = t₂.score) →
        (layer name description domain techniques).gradient.minValue = 0 ∧
          (layer name description domain techniques).gradient.colors = ["#ffffff", "#66b1ff"]) ∧
    ((∃ t₁ ∈ techniques, ∃ t₂ ∈ techniques, t₁.score ≠ t₂.score) →
        (techniques.map (fun t => t.score)).min? =
            some (layer name description domain techniques).gradient.minValue ∧
          (techniques.map (fun t => t.score)).max? =
            some (layer name description domain techniques).gradient.maxValue ∧
          (layer name description domain techniques).gradient.colors = ["#ACD0E6", "#08336E"]) ∧
    (techniques = [] →
        (layer name description domain techniques).gradient.minValue = 0 ∧
          (layer name description domain techniques).gradient.maxValue = 100) := by
  refine ⟨?_, ?_, ?_⟩
  · intro hne huni
    obtain ⟨t, ht⟩ := List.exists_mem_of_ne_nil techniques hne
    have hmin : (techniques.map (fun t => t.score)).min? = some t.score := by
      rw [List.min?_eq_some_iff']
      exact ⟨List.mem_map_of_mem _ ht, fun b hb => by
        obtain ⟨u, hu, rfl⟩ := List.mem_map.1 hb
        exact le_of_eq (huni t ht u hu)⟩
    have hmax : (techniques.map (fun t => t.score)).max? = some t.score := by
      rw [List.max?_eq_some_iff']
      exact ⟨List.mem_map_of_mem _ ht, fun b hb => by
        obtain ⟨u, hu, rfl⟩ := List.mem_map.1 hb
        exact le_of_eq (huni u hu t ht)⟩
    rw [layer_gradient_eq name description domain techniques _ _ hmin hmax]
    simp
  · rintro ⟨t₁, ht₁, t₂, ht₂, hdiff⟩
    have hne : techniques.map (fun t => t.score) ≠ [] := by
      intro h
      rw [List.map_eq_nil_iff] at h
      subst h
      exact absurd ht₁ (List.not_mem_nil t₁)
    obtain ⟨m, hm⟩ : ∃ m, (techniques.map (fun t => t.score)).min? = some m := by
      cases h : (techniques.map (fun t => t.score)).min? with
      | none => exact absurd (List.min?_eq_none_iff.1 h) hne
      | some m => exact ⟨m, rfl⟩
    obtain ⟨M, hM⟩ : ∃ M, (techniques.map (fun t => t.score)).max? = some M := by
      cases h : (techniques.map (fun t => t.score)).max? with
      | none => exact absurd (List.max?_eq_none_iff.1 h) hne
      | some M => exact ⟨M, rfl⟩
    obtain ⟨-, hmle⟩ := List.min?_eq_some_iff'.1 hm
    obtain ⟨-, hMge⟩ := List.max?_eq_some_iff'.1 hM
    have h₁ : m ≤ t₁.score := hmle _ (List.mem_map_of_mem _ ht₁)
    have h₂ : m ≤ t₂.score := hmle _ (List.mem_map_of_mem _ ht₂)
    have h₃ : t₁.score ≤ M := hMge _ (List.mem_map_of_mem _ ht₁)
    have h₄ : t₂.score ≤ M := hMge _ (List.mem_map_of_mem _ ht₂)
    have hMm : M - m ≠ 0 := by
      intro h
      exact hdiff (by omega)
    rw [layer_gradient_eq name description domain techniques _ _ hm hM, if_neg hMm]
    exact ⟨hm, hM, rfl⟩
  · intro h
    subst h
    exact ⟨rfl, rfl⟩

theorem layer_gradient_spec_witness :
    ((layer "n" "d" "e" [⟨"T1", 2, "c"⟩, ⟨"T2", 2, "c"⟩]).gradient.minValue = 0 ∧
      (layer "n" "d" "e" [⟨"T1", 2, "c"⟩, ⟨"T2", 2, "c"⟩]).gradient.colors =
        ["#ffffff", "#66b1ff"]) ∧
    ((([⟨"T1", 1, "c"⟩, ⟨"T2", 3, "c"⟩] : List Technique).map (fun t => t.score)).min? =
        some (layer "n" "d" "e" [⟨"T1", 1, "c"⟩, ⟨"T2", 3, "c"⟩]).gradient.minValue ∧
      (([⟨"T1", 1, "c"⟩, ⟨"T2", 3, "c"⟩] : List Technique).map (fun t => t.score)).max? =
        some (layer "n" "d" "e" [⟨"T1", 1, "c"⟩, ⟨"T2", 3, "c"⟩]).gradient.maxValue ∧
      (layer "n" "d" "e" [⟨"T1", 1, "c"⟩, ⟨"T2", 3, "c"⟩]).gradient.colors =
        ["#ACD0E6", "#08336E"]) ∧
    ((layer "n" "d" "e" ([] : List Technique)).gradient.minValue = 0 ∧
      (layer "n" "d" "e" ([] : List Technique)).gradient.maxValue = 100) :=
  ⟨(layer_gradient_spec "n" "d" "e" _).1 (by decide) (by decide),
   (layer_gradient_spec "n" "d" "e" _).2.1
     ⟨⟨"T1", 1, "c"⟩, by decide, ⟨"T2", 3, "c"⟩, by decide, by decide⟩,
   (layer_gradient_spec "n" "d" "e" _).2.2 rfl⟩

/-- C9 as stated is false: the comment of a scored technique is not the bare
sorted join of the contributing control ids — the code prepends the prefix
"Mitigated by ".  At input `technique "T1" ["AC-1"]` the sorted join is
"AC-1" but the comment is "Mitigated by AC-1". -/
theorem technique_comment_counterexample :
    (technique "T1" ["AC-1"]).comment ≠ "AC-1" := by
  decide

/-- C9 amended: for every scored technique, the comment equals the string
"Mitigated by " followed by the contributing control ids sorted ascending and
joined with ", ". -/
theorem technique_comment_amended (attackID : String) (mapped_controls : List String) :
    ∃ l, List.Perm l mapped_controls ∧ l.Pairwise strLe ∧
      (technique attackID mapped_controls).comment =
        "Mitigated by " ++ ", ".intercalate l :=
  ⟨sortStrings mapped_controls, sortStrings_perm _, sortStrings_sorted _, rfl⟩

theorem searchFamily_eq_none (l : List Char) (h : '-' ∉ l) : searchFamily l = none := by
  induction l with
  | nil => rfl
  | cons c cs ih =>
    have hmat : matchFamilyAt (c :: cs) = none := by
      unfold matchFamilyAt
      split
      · rename_i heq
        have : '-' ∈ (c :: cs).dropWhile isWordChar := by
          rw [heq]
          exact List.mem_cons_self _ _
        exact absurd (((c :: cs).dropWhile_sublist isWordChar).mem this) h
      · rfl
    rw [searchFamily, hmat]
    exact ih (fun hc => h (List.mem_cons_of_mem _ hc))

/-- C5: family extraction returns the first captured group of `(\w+)-.*`
("AC-1" yields "AC", "SC-7(1)" yields "SC"), and for a control id containing
no hyphen the grouping aborts with the fatal MalformedIdentifier error
instead of silently bucketing the control. -/
theorem familyOf_spec :
    familyOf "AC-1" = .ok "AC" ∧ familyOf "SC-7(1)" = .ok "SC" ∧
      ∀ s : String, '-' ∉ s.data →
        familyOf s = .error (.malformedIdentifier s) := by
  refine ⟨rfl, rfl, ?_⟩
  intro s h
  unfold familyOf
  rw [searchFamily_eq_none s.data h]

theorem familyOf_spec_witness :
    familyOf "AC1" = .error (.malformedIdentifier "AC1") :=
  familyOf_spec.2.2 "AC1" (by decide)

theorem mem_dictGet_dictAdd [DecidableEq κ] (d : List (κ × List α)) (k k' : κ) (a x : α) :
    x ∈ dictGet (dictAdd d k' a) k ↔ x ∈ dictGet d k ∨ (k = k' ∧ x = a) := by
  induction d with
  | nil =>
    by_cases h : k' = k
    · subst h
      simp [dictAdd, dictGet]
    · simp only [dictAdd, dictGet, if_neg h]
      constructor
      · exact fun hx => Or.inl hx
      · rintro (hx | ⟨hk, -⟩)
        · exact hx
        · exact absurd hk.symm h
  | cons kv rest ih =>
    obtain ⟨k₀, v⟩ := kv
    by_cases h₀ : k₀ = k'
    · subst h₀
      by_cases hk : k₀ = k
      · subst hk
        simp [dictAdd, dictGet]
      · simp only [dictAdd, if_pos rfl, dictGet, if_neg hk]
        constructor
        · exact fun hx => Or.inl hx
        · rintro (hx | ⟨hkk, -⟩)
          · exact hx
          · exact absurd hkk.symm hk
    · by_cases hk : k₀ = k
      · subst hk
        simp only [dictAdd, if_neg h₀, dictGet, if_pos rfl]
        constructor
        · exact fun hx => Or.inl hx
        · rintro (hx | ⟨hkk, -⟩)
          · exact hx
          · exact absurd hkk h₀
      · simp only [dictAdd, if_neg h₀, dictGet, if_neg hk]
        exact ih

theorem mem_dictGet_foldl_dictAdd [DecidableEq κ] (ks : List κ)
    (d : List (κ × List α)) (c x : α) (k : κ) :
    x ∈ dictGet (ks.foldl (fun d k' => dictAdd d k' c) d) k ↔
      x ∈ dictGet d k ∨ (k ∈ ks ∧ x = c) := by
  induction ks generalizing d with
  | nil => simp
  | cons k₀ ks ih =>
    rw [List.foldl_cons, ih, mem_dictGet_dictAdd]
    constructor
    · rintro ((h | ⟨rfl, rfl⟩) | ⟨hk, rfl⟩)
      · exact Or.inl h
      · exact Or.inr ⟨List.mem_cons_self _ _, rfl⟩
      · exact Or.inr ⟨List.mem_cons_of_mem _ hk, rfl⟩
    · rintro (h | ⟨hk, rfl⟩)
      · exact Or.inl (Or.inl h)
      · rcases List.mem_cons.1 hk with rfl | hk
        · exact Or.inl (Or.inr ⟨rfl, rfl⟩)
        · exact Or.inr ⟨hk, rfl⟩

theorem mem_dictGet_addControlToGroups (x_mitre : String)
    (d : List (Scalar × List SDO)) (c c' : SDO) (k : Scalar) :
    c ∈ dictGet (addControlToGroups x_mitre d c') k ↔
      c ∈ dictGet d k ∨ (k ∈ controlKeys x_mitre c' ∧ c = c') := by
  unfold addControlToGroups
  exact mem_dictGet_foldl_dictAdd (controlKeys x_mitre c') d c' c k

theorem mem_dictGet_groupFold (x_mitre : String) (cs : List SDO)
    (d : List (Scalar × List SDO)) (c : SDO) (k : Scalar) :
    c ∈ dictGet (cs.foldl (addControlToGroups x_mitre) d) k ↔
      c ∈ dictGet d k ∨ (c ∈ cs ∧ k ∈ controlKeys x_mitre c) := by
  induction cs generalizing d with
  | nil => simp
  | cons c₀ cs ih =>
    rw [List.foldl_cons, ih, mem_dictGet_addControlToGroups]
    constructor
    · rintro ((h | ⟨hk, rfl⟩) | ⟨hc, hk⟩)
      · exact Or.inl h
      · exact Or.inr ⟨List.mem_cons_self _ _, hk⟩
      · exact Or.inr ⟨List.mem_cons_of_mem _ hc, hk⟩
    · rintro (h | ⟨hc, hk⟩)
      · exact Or.inl (Or.inl h)
      · rcases List.mem_cons.1 hc with rfl | hc
        · exact Or.inl (Or.inr ⟨hk, rfl⟩)
        · exact Or.inr ⟨hc, hk⟩

theorem mem_groupControlsByProperty (coa : List SDO) (x_mitre : String)
    (c : SDO) (k : Scalar) :
    c ∈ dictGet (groupControlsByProperty coa x_mitre) k ↔
      c ∈ coa ∧ k ∈ controlKeys x_mitre c := by
  unfold groupControlsByProperty
  rw [mem_dictGet_groupFold]
  simp [dictGet]

/-- C6: for every control and metadata property: a (truthy) list-valued
control appears in exactly the partitions named by the list elements; a
(truthy) scalar-valued control appears only in the partition of that scalar;
a control not defining the property appears in no partition (the grouping is
total, so no error is possible). -/
theorem groupByProperty_membership (controls : List SDO) (x_mitre : String)
    (c : SDO) (hc : c ∈ queryCoA controls) :
    (∀ l, lookupProp x_mitre c = some (PVal.list l) → l ≠ [] →
        ∀ k, c ∈ dictGet (groupControlsByProperty (queryCoA controls) x_mitre) k ↔ k ∈ l) ∧
    (∀ s, lookupProp x_mitre c = some (PVal.scalar s) → truthy (PVal.scalar s) = true →
        ∀ k, c ∈ dictGet (groupControlsByProperty (queryCoA controls) x_mitre) k ↔ k = s) ∧
    (lookupProp x_mitre c = none →
        ∀ k, c ∉ dictGet (groupControlsByProperty (queryCoA controls) x_mitre) k) := by
  refine ⟨?_, ?_, ?_⟩
  · intro l hl hne k
    rw [mem_groupControlsByProperty]
    unfold controlKeys
    rw [hl]
    simp [truthy, hne, hc]
  · intro s hs htr k
    rw [mem_groupControlsByProperty]
    unfold controlKeys
    rw [hs]
    simp [htr, hc]
  · intro hn k h
    rw [mem_groupControlsByProperty] at h
    obtain ⟨-, hk⟩ := h
    unfold controlKeys at hk
    rw [hn] at hk
    exact absurd hk (List.not_mem_nil k)

theorem groupByProperty_membership_witness :
    (exListControl ∈ dictGet
        (groupControlsByProperty (queryCoA [exListControl]) "x_mitre_impact")
        (Scalar.str "a") ↔ Scalar.str "a" ∈ [Scalar.str "a", Scalar.str "b"]) ∧
    (exScalarControl ∈ dictGet
        (groupControlsByProperty (queryCoA [exScalarControl]) "x_mitre_impact")
        (Scalar.str "x") ↔ Scalar.str "x" = Scalar.str "x") ∧
    exNoPropControl ∉ dictGet
      (groupControlsByProperty (queryCoA [exNoPropControl]) "x_mitre_impact")
      (Scalar.str "q") :=
  ⟨(groupByProperty_membership [exListControl] "x_mitre_impact" exListControl
      (by decide)).1 [Scalar.str "a", Scalar.str "b"] rfl (by decide) (Scalar.str "a"),
   (groupByProperty_membership [exScalarControl] "x_mitre_impact" exScalarControl
      (by decide)).2.1 (Scalar.str "x") rfl (by decide) (Scalar.str "x"),
   (groupByProperty_membership [exNoPropControl] "x_mitre_impact" exNoPropControl
      (by decide)).2.2 rfl (Scalar.str "q")⟩

/-- C10 (implicit): a control whose defined property value is falsy (empty
string, empty list, 0, or False) is silently skipped by the property
grouping and appears in no partition. -/
theorem groupByProperty_falsy_excluded (controls : List SDO) (x_mitre : String)
    (c : SDO) (v : PVal) (hv : lookupProp x_mitre c = some v)
    (hfalsy : truthy v = false) :
    ∀ k, c ∉ dictGet (groupControlsByProperty (queryCoA controls) x_mitre) k := by
  intro k h
  rw [mem_groupControlsByProperty] at h
  obtain ⟨-, hk⟩ := h
  unfold controlKeys at hk
  rw [hv] at hk
  simp [hfalsy] at hk

theorem groupByProperty_falsy_excluded_witness :
    exFalsyControl ∉ dictGet
      (groupControlsByProperty (queryCoA [exFalsyControl]) "x_mitre_impact")
      (Scalar.int 0) :=
  groupByProperty_falsy_excluded [exFalsyControl] "x_mitre_impact" exFalsyControl
    (PVal.scalar (Scalar.int 0)) rfl rfl (Scalar.int 0)

theorem rowOfMapping_ok (attack controls : List SDO) (m : Relationship)
    (hc : bundleGet controls m.source_ref ≠ [])
    (ht : bundleGet attack m.target_ref ≠ []) :
    ∃ row, rowOfMapping attack controls m = .ok row := by
  unfold rowOfMapping
  cases hcg : bundleGet controls m.source_ref with
  | nil => exact absurd hcg hc
  | cons c cl =>
    cases htg : bundleGet attack m.target_ref with
    | nil => exact absurd htg ht
    | cons t tl => exact ⟨_, rfl⟩

theorem mapM_rows_ok (attack controls : List SDO) (mappings : List Relationship)
    (h : ∀ m ∈ mappings,
      bundleGet controls m.source_ref ≠ [] ∧ bundleGet attack m.target_ref ≠ []) :
    ∃ rows, mappings.mapM (rowOfMapping attack controls) = .ok rows ∧
      rows.length = mappings.length := by
  induction mappings with
  | nil => exact ⟨[], rfl, rfl⟩
  | cons m ms ih =>
    obtain ⟨hc, ht⟩ := h m (List.mem_cons_self _ _)
    obtain ⟨row, hrow⟩ := rowOfMapping_ok attack controls m hc ht
    obtain ⟨rows, hrows, hlen⟩ := ih (fun m' hm' => h m' (List.mem_cons_of_mem _ hm'))
    refine ⟨row :: rows, ?_, by simp [hlen]⟩
    rw [List.mapM_cons, hrow, hrows]
    rfl

theorem mapM_rows_error (attack controls : List SDO) (mappings : List Relationship)
    (h : ∃ m ∈ mappings,
      bundleGet controls m.source_ref = [] ∨ bundleGet attack m.target_ref = []) :
    ∃ e, mappings.mapM (rowOfMapping attack controls) = .error e ∧
      ∃ m ∈ mappings,
        (e = TableError.unresolvedControl m.source_ref ∧
          bundleGet controls m.source_ref = []) ∨
        (e = TableError.unresolvedTechnique m.target_ref ∧
          bundleGet attack m.target_ref = []) := by
  induction mappings with
  | nil =>
    obtain ⟨m, hm, -⟩ := h
    exact absurd hm (List.not_mem_nil m)
  | cons m ms ih =>
    cases hcg : bundleGet controls m.source_ref with
    | nil =>
      refine ⟨.unresolvedControl m.source_ref, ?_, m, List.mem_cons_self _ _,
        Or.inl ⟨rfl, hcg⟩⟩
      rw [List.mapM_cons]
      unfold rowOfMapping
      rw [hcg]
      rfl
    | cons c cl =>
      cases htg : bundleGet attack m.target_ref with
      | nil =>
        refine ⟨.unresolvedTechnique m.target_ref, ?_, m, List.mem_cons_self _ _,
          Or.inr ⟨rfl, htg⟩⟩
        rw [List.mapM_cons]
        unfold rowOfMapping
        rw [hcg, htg]
        rfl
      | cons t tl =>
        have hms : ∃ m' ∈ ms,
            bundleGet controls m'.source_ref = [] ∨ bundleGet attack m'.target_ref = [] := by
          obtain ⟨m', hm', hbad⟩ := h
          rcases List.mem_cons.1 hm' with rfl | hm'
          · rcases hbad with hbad | hbad
            · rw [hcg] at hbad
              exact absurd hbad (List.cons_ne_nil _ _)
            · rw [htg] at hbad
              exact absurd hbad (List.cons_ne_nil _ _)
          · exact ⟨m', hm', hbad⟩
        obtain ⟨e, he, m', hm', hwit⟩ := ih hms
        refine ⟨e, ?_, m', List.mem_cons_of_mem _ hm', hwit⟩
        rw [List.mapM_cons, he]
        unfold rowOfMapping
        rw [hcg, htg]
        rfl

/-- C7: when every relationship's `source_ref` resolves in the controls
bundle and every `target_ref` resolves in the ATT&CK bundle, `mappings_to_df`
emits exactly one row per input relationship; when any reference fails to
resolve, the run aborts with an error naming the missing id and the store
searched, and no partial output is produced. -/
theorem mappings_to_df_resolution (attack controls : List SDO)
    (mappings : List Relationship) :
    ((∀ m ∈ mappings,
        bundleGet controls m.source_ref ≠ [] ∧ bundleGet attack m.target_ref ≠ []) →
      ∃ rows, mappings_to_df attack controls mappings = .ok rows ∧
        rows.length = mappings.length) ∧
    ((∃ m ∈ mappings,
        bundleGet controls m.source_ref = [] ∨ bundleGet attack m.target_ref = []) →
      ∃ e, mappings_to_df attack controls mappings = .error e ∧
        ∃ m ∈ mappings,
          (e = TableError.unresolvedControl m.source_ref ∧
            bundleGet controls m.source_ref = []) ∨
          (e = TableError.unresolvedTechnique m.target_ref ∧
            bundleGet attack m.target_ref = [])) := by
  constructor
  · intro h
    obtain ⟨rows, hrows, hlen⟩ := mapM_rows_ok attack controls mappings h
    refine ⟨sortRows rows, ?_, ?_⟩
    · unfold mappings_to_df
      rw [hrows]
      rfl
    · unfold sortRows
      rw [List.length_insertionSort]
      exact hlen
  · intro h
    obtain ⟨e, he, hwit⟩ := mapM_rows_error attack controls mappings h
    refine ⟨e, ?_, hwit⟩
    unfold mappings_to_df
    rw [he]
    rfl

theorem mappings_to_df_resolution_witness :
    (∃ rows, mappings_to_df exAttack exControls exMappings = .ok rows ∧
      rows.length = exMappings.length) ∧
    (∃ e, mappings_to_df exAttack exControls
        [{ source_ref := "missing", target_ref := "attack-pattern--1"
           relationship_type := "mitigates" }] = .error e ∧
      ∃ m ∈ [({ source_ref := "missing", target_ref := "attack-pattern--1"
                relationship_type := "mitigates" } : Relationship)],
        (e = TableError.unresolvedControl m.source_ref ∧
          bundleGet exControls m.source_ref = []) ∨
        (e = TableError.unresolvedTechnique m.target_ref ∧
          bundleGet exAttack m.target_ref = [])) :=
  ⟨(mappings_to_df_resolution exAttack exControls exMappings).1 (by decide),
   (mappings_to_df_resolution exAttack exControls _).2
     ⟨{ source_ref := "missing", target_ref := "attack-pattern--1"
        relationship_type := "mitigates" }, List.mem_cons_self _ _, Or.inl (by decide)⟩⟩

theorem rowLE_total (a b : Row) : rowLE a b ∨ rowLE b a := by
  unfold rowLE rowLeb
  by_cases h : a.control_id = b.control_id
  · rw [if_pos h, if_pos h.symm]
    exact listCharLeb_total _ _
  · rw [if_neg h, if_neg (fun hh => h hh.symm)]
    exact listCharLeb_total _ _

theorem rowLE_trans (a b c : Row) (hab : rowLE a b) (hbc : rowLE b c) : rowLE a c := by
  unfold rowLE rowLeb at hab hbc ⊢
  by_cases h₁ : a.control_id = b.control_id <;>
    by_cases h₂ : b.control_id = c.control_id
  · rw [if_pos h₁] at hab
    rw [if_pos h₂] at hbc
    rw [if_pos (h₁.trans h₂)]
    exact listCharLeb_trans _ _ _ hab hbc
  · rw [if_neg h₂] at hbc
    have hac : a.control_id ≠ c.control_id := by
      rw [h₁]
      exact h₂
    rw [if_neg hac, h₁]
    exact hbc
  · rw [if_neg h₁] at hab
    have hac : a.control_id ≠ c.control_id := by
      rw [← h₂]
      exact h₁
    rw [if_neg hac, ← h₂]
    exact hab
  · rw [if_neg h₁] at hab
    rw [if_neg h₂] at hbc
    by_cases hac : a.control_id = c.control_id
    · exfalso
      apply h₁
      apply strLe_antisymm
      · exact hab
      · rw [← hac] at hbc
        exact hbc
    · rw [if_neg hac]
      exact listCharLeb_trans _ _ _ hab hbc

theorem rowLE_of_same_key (a b : Row) (h₁ : a.control_id = b.control_id)
    (h₂ : a.technique_id = b.technique_id) : rowLE a b := by
  unfold rowLE rowLeb
  rw [if_pos h₁, h₂]
  exact listCharLeb_refl _

/-- C8: the tabular report's row sequence is stably sorted ascending by
(control id, technique id) under ordinary string comparison: the sorted
output is an ordered permutation of the input rows, and rows with equal sort
keys keep their original relative order. -/
theorem sortRows_stable_sorted (rows : List Row) :
    (sortRows rows).Pairwise rowLE ∧
    List.Perm (sortRows rows) rows ∧
    ∀ cid tid,
      (sortRows rows).filter
          (fun r => decide (r.control_id = cid ∧ r.technique_id = tid)) =
        rows.filter (fun r => decide (r.control_id = cid ∧ r.technique_id = tid)) := by
  refine ⟨@List.sorted_insertionSort Row rowLE _ ⟨rowLE_total⟩ ⟨rowLE_trans⟩ rows,
    List.perm_insertionSort _ _, ?_⟩
  intro cid tid
  set p : Row → Bool := fun r => decide (r.control_id = cid ∧ r.technique_id = tid) with hp
  have hall : ∀ x ∈ rows.filter p, x.control_id = cid ∧ x.technique_id = tid := by
    intro x hx
    have := List.of_mem_filter hx
    rw [hp] at this
    exact of_decide_eq_true this
  have hpw : (rows.filter p).Pairwise rowLE := by
    apply List.pairwise_of_forall_mem_list
    intro a ha b hb
    obtain ⟨ha₁, ha₂⟩ := hall a ha
    obtain ⟨hb₁, hb₂⟩ := hall b hb
    exact rowLE_of_same_key a b (ha₁.trans hb₁.symm) (ha₂.trans hb₂.symm)
  have hsub : List.Sublist (rows.filter p) (sortRows rows) :=
    List.sublist_insertionSort hpw (List.filter_sublist rows)
  have hsub₂ : List.Sublist (rows.filter p) ((sortRows rows).filter p) := by
    have hfix : (rows.filter p).filter p = rows.filter p :=
      List.filter_eq_self.2 (fun a ha => List.of_mem_filter ha)
    have := hsub.filter p
    rw [hfix] at this
    exact this
  have hperm : List.Perm ((sortRows rows).filter p) (rows.filter p) :=
    (List.perm_insertionSort rowLE rows).filter p
  exact (hsub₂.eq_of_length hperm.length_eq.symm).symm

theorem except_bind_ok (x : α) (f : α → Except ε β) :
    (Except.ok x >>= f) = f x := rfl

theorem except_bind_error (e : ε) (f : α → Except ε β) :
    ((Except.error e : Except ε α) >>= f) = .error e := rfl

theorem layer_techniques (name description domain : String) (ts : List Technique) :
    (layer name description domain ts).techniques = ts := by
  simp only [layer]
  cases hmin : (List.map (fun t => t.score) ts).min? <;>
    cases hmax : (List.map (fun t => t.score) ts).max? <;>
      simp only [hmin, hmax] <;> split <;> rfl

theorem controlLayers_nonempty (mappings : List Relationship) (attackdata : List SDO)
    (domain frameworkname famName : String) (cs : List SDO) (ls : List OutLayer)
    (h : controlLayers mappings attackdata domain frameworkname famName cs = .ok ls) :
    ∀ out ∈ ls, out.layer.techniques ≠ [] := by
  induction cs generalizing ls with
  | nil =>
    cases h
    intro out hout
    exact absurd hout (List.not_mem_nil out)
  | cons c cs ih =>
    unfold controlLayers at h
    cases htech : toTechniquelist [c] mappings attackdata with
    | error e =>
      rw [htech, except_bind_error] at h
      cases h
    | ok techs =>
      rw [htech, except_bind_ok] at h
      cases htail : controlLayers mappings attackdata domain frameworkname famName cs with
      | error e =>
        rw [htail, except_bind_error] at h
        cases h
      | ok tail =>
        rw [htail, except_bind_ok] at h
        by_cases hlen : techs.length > 0
        · rw [if_pos hlen] at h
          cases h
          intro out hout
          rcases List.mem_cons.1 hout with rfl | hout
          · rw [layer_techniques]
            intro hnil
            rw [hnil] at hlen
            exact absurd hlen (by simp)
          · exact ih _ htail out hout
        · rw [if_neg hlen] at h
          cases h
          exact ih _ htail

theorem except_pure_eq_ok (x : α) : (pure x : Except ε α) = .ok x := rfl

theorem familyLayers_nonempty (mappings : List Relationship) (attackdata : List SDO)
    (domain frameworkname : String) (names : List (String × String))
    (fams : List (String × List SDO)) (ls : List OutLayer)
    (h : familyLayers mappings attackdata domain frameworkname names fams = .ok ls) :
    ∀ out ∈ ls, out.layer.techniques ≠ [] := by
  induction fams generalizing ls with
  | nil =>
    cases h
    intro out hout
    exact absurd hout (List.not_mem_nil out)
  | cons pair rest ih =>
    obtain ⟨fid, fctrls⟩ := pair
    unfold familyLayers at h
    cases htech : toTechniquelist fctrls mappings attackdata with
    | error e =>
      rw [htech, except_bind_error] at h
      cases h
    | ok techs =>
      rw [htech, except_bind_ok] at h
      cases htail : familyLayers mappings attackdata domain frameworkname names rest with
      | error e =>
        rw [htail, except_bind_error] at h
        cases h
      | ok tail =>
        rw [htail, except_bind_ok] at h
        by_cases hlen : techs.length > 0
        · rw [if_pos hlen] at h
          cases hctrl : controlLayers mappings attackdata domain frameworkname
              (dictGetD names fid fid) fctrls with
          | error e =>
            rw [hctrl, except_bind_error] at h
            cases h
          | ok ctrlLs =>
            rw [hctrl, except_bind_ok] at h
            cases h
            intro out hout
            rcases List.mem_append.1 hout with hout | hout
            · rcases List.mem_cons.1 hout with rfl | hout
              · rw [layer_techniques]
                intro hnil
                rw [hnil] at hlen
                exact absurd hlen (by simp)
              · exact controlLayers_nonempty mappings attackdata domain frameworkname
                  (dictGetD names fid fid) fctrls ctrlLs hctrl out hout
            · exact ih _ htail out hout
        · rw [if_neg hlen] at h
          cases h
          exact ih _ htail

theorem propLayers_nonempty (mappings : List Relationship) (attackdata : List SDO)
    (domain propertyname : String) (isListType : Bool)
    (groups : List (Scalar × List SDO)) (ls : List OutLayer)
    (h : propLayers mappings attackdata domain propertyname isListType groups = .ok ls) :
    ∀ out ∈ ls, out.layer.techniques ≠ [] := by
  induction groups generalizing ls with
  | nil =>
    cases h
    intro out hout
    exact absurd hout (List.not_mem_nil out)
  | cons pair rest ih =>
    obtain ⟨v, cs⟩ := pair
    unfold propLayers at h
    cases htech : toTechniquelist cs mappings attackdata with
    | error e =>
      rw [htech, except_bind_error] at h
      cases h
    | ok techs =>
      rw [htech, except_bind_ok] at h
      cases htail : propLayers mappings attackdata domain propertyname isListType rest with
      | error e =>
        rw [htail, except_bind_error] at h
        cases h
      | ok tail =>
        rw [htail, except_bind_ok] at h
        by_cases hlen : techs.length > 0
        · rw [if_pos hlen] at h
          cases h
          intro out hout
          rcases List.mem_cons.1 hout with rfl | hout
          · rw [layer_techniques]
            intro hnil
            rw [hnil] at hlen
            exact absurd hlen (by simp)
          · exact ih _ htail out hout
        · rw [if_neg hlen] at h
          cases h
          exact ih _ htail

/-- C4 as stated is false: the global framework overview layer is emitted
unconditionally.  With controls AC-1, AC-2 and an empty mappings store every
partition has zero resolvable mappings, yet the pipeline still produces the
overview layer document — with an empty technique list. -/
theorem frameworkOverview_empty_counterexample :
    getFrameworkOverviewLayers exControls [] exAttack "enterprise-attack" "nist800-53-r4" =
      .ok [{ outfile := "nist800-53-r4-overview.json"
             layer := { name := "nist800-53-r4 overview", version := "3.0", sorting := 3
                        description := "nist800-53-r4 heatmap overview of control mappings, where scores are the number of associated controls"
                        domain := "enterprise-attack", techniques := []
                        gradient := { colors := ["#ACD0E6", "#08336E"]
                                      minValue := 0, maxValue := 100 } } }] := by
  rfl

/-- C4 amended: every family, per-control and per-property-value layer the
pipeline emits has a non-empty technique list, and a partition with zero
resolvable mappings produces no layer document for these groupings — but the
global framework overview layer is emitted unconditionally, even when its
technique list is empty. -/
theorem pipeline_layers_guarded (controls : List SDO) (mappings : List Relationship)
    (attackdata : List SDO) (domain frameworkname : String) :
    (∀ ls, getFrameworkOverviewLayers controls mappings attackdata domain frameworkname = .ok ls →
      ∃ overview rest, ls = overview :: rest ∧
        overview.outfile = frameworkname ++ "-overview.json" ∧
        ∀ out ∈ rest, out.layer.techniques ≠ []) ∧
    (∀ x_mitre ls,
      getLayersByProperty controls mappings attackdata domain frameworkname x_mitre = .ok ls →
      ∀ out ∈ ls, out.layer.techniques ≠ []) := by
  constructor
  · intro ls h
    unfold getFrameworkOverviewLayers at h
    cases hfam : buildFamilies (queryCoA controls) with
    | error e =>
      rw [hfam, except_bind_error] at h
      cases h
    | ok tables =>
      rw [hfam, except_bind_ok] at h
      cases htech : toTechniquelist controls mappings attackdata with
      | error e =>
        rw [htech, except_bind_error] at h
        cases h
      | ok overviewTechs =>
        rw [htech, except_bind_ok] at h
        cases hrest : familyLayers mappings attackdata domain frameworkname
            tables.familyIDToName tables.familyIDToControls with
        | error e =>
          rw [hrest, except_bind_error] at h
          cases h
        | ok rest =>
          rw [hrest, except_bind_ok, except_pure_eq_ok] at h
          cases h
          exact ⟨_, rest, rfl, rfl,
            familyLayers_nonempty mappings attackdata domain frameworkname
              tables.familyIDToName tables.familyIDToControls rest hrest⟩
  · intro x_mitre ls h
    have h' : propLayers mappings attackdata domain
        ((x_mitre.splitOn "x_mitre_").getD 1 "")
        ((queryCoA controls).any (fun c =>
          match lookupProp x_mitre c with
          | some (PVal.list l) => !l.isEmpty
          | _ => false))
        (groupControlsByProperty (queryCoA controls) x_mitre) = .ok ls := h
    exact propLayers_nonempty mappings attackdata domain
      ((x_mitre.splitOn "x_mitre_").getD 1 "")
      ((queryCoA controls).any (fun c =>
        match lookupProp x_mitre c with
        | some (PVal.list l) => !l.isEmpty
        | _ => false))
      (groupControlsByProperty (queryCoA controls) x_mitre) ls h'

theorem pipeline_layers_guarded_witness :
    (∃ overview rest,
        ([{ outfile := "fw-overview.json"
            layer := layer "fw overview"
              "fw heatmap overview of control mappings, where scores are the number of associated controls"
              "enterprise-attack" [] }] : List OutLayer) = overview :: rest ∧
        overview.outfile = "fw" ++ "-overview.json" ∧
        ∀ out ∈ rest, out.layer.techniques ≠ []) ∧
    (∀ out ∈ ([] : List OutLayer), out.layer.techniques ≠ []) :=
  ⟨(pipeline_layers_guarded exControls [] exAttack "enterprise-attack" "fw").1 _ rfl,
   (pipeline_layers_guarded exControls [] exAttack "enterprise-attack" "fw").2
     "x_mitre_impact" [] rfl⟩

theorem DictR_refl (d : List (String × List String)) : DictR d d := by
  induction d with
  | nil => trivial
  | cons kv rest ih =>
    obtain ⟨k, v⟩ := kv
    exact ⟨rfl, fun x => Iff.rfl, ih⟩

theorem DictR_dictAdd (d₁ d₂ : List (String × List String))
    (h : DictR d₁ d₂) (k c : String) :
    DictR (dictAdd d₁ k c) (dictAdd d₂ k c) := by
  induction d₁ generalizing d₂ with
  | nil =>
    cases d₂ with
    | nil => exact ⟨rfl, fun x => Iff.rfl, trivial⟩
    | cons kv rest => exact absurd h (by simp [DictR])
  | cons kv₁ r₁ ih =>
    obtain ⟨k₁, v₁⟩ := kv₁
    cases d₂ with
    | nil => exact absurd h (by simp [DictR])
    | cons kv₂ r₂ =>
      obtain ⟨k₂, v₂⟩ := kv₂
      obtain ⟨hk, hv, hr⟩ := h
      subst hk
      unfold dictAdd
      by_cases hkk : k₁ = k
      · rw [if_pos hkk, if_pos hkk]
        refine ⟨rfl, ?_, hr⟩
        intro x
        simp only [List.mem_append, List.mem_singleton]
        exact or_congr_left (hv x)
      · rw [if_neg hkk, if_neg hkk]
        exact ⟨rfl, hv, ih r₂ hr⟩

theorem DictR_dictAdd_self (d : List (String × List String)) (k c : String)
    (h : c ∈ dictGet d k) : DictR (dictAdd d k c) d := by
  induction d with
  | nil => exact absurd h (List.not_mem_nil c)
  | cons kv rest ih =>
    obtain ⟨k₀, v⟩ := kv
    unfold dictAdd
    by_cases hk : k₀ = k
    · rw [if_pos hk]
      refine ⟨rfl, ?_, DictR_refl rest⟩
      intro x
      simp only [List.mem_append, List.mem_singleton]
      constructor
      · rintro (hx | rfl)
        · exact hx
        · rw [dictGet, if_pos hk] at h
          exact h
      · exact fun hx => Or.inl hx
    · rw [if_neg hk]
      refine ⟨rfl, fun x => Iff.rfl, ?_⟩
      rw [dictGet, if_neg hk] at h
      exact ih h

theorem DictR_stepMapping (controls attackdata : List SDO) (m : Relationship)
    (d₁ d₂ : List (String × List String)) (h : DictR d₁ d₂) :
    (∃ e, stepMapping controls attackdata d₁ m = .error e ∧
      stepMapping controls attackdata d₂ m = .error e) ∨
    (∃ d₁' d₂', stepMapping controls attackdata d₁ m = .ok d₁' ∧
      stepMapping controls attackdata d₂ m = .ok d₂' ∧ DictR d₁' d₂') := by
  unfold stepMapping
  cases storeGet controls m.source_ref with
  | none => exact Or.inr ⟨d₁, d₂, rfl, rfl, h⟩
  | some c =>
    cases storeGet attackdata m.target_ref with
    | none => exact Or.inl ⟨_, rfl, rfl⟩
    | some t => exact Or.inr ⟨_, _, rfl, rfl, DictR_dictAdd d₁ d₂ h _ _⟩

theorem DictR_foldlM (controls attackdata : List SDO) (ms : List Relationship)
    (d₁ d₂ : List (String × List String)) (h : DictR d₁ d₂) :
    (∃ e, ms.foldlM (stepMapping controls attackdata) d₁ = .error e ∧
      ms.foldlM (stepMapping controls attackdata) d₂ = .error e) ∨
    (∃ d₁' d₂', ms.foldlM (stepMapping controls attackdata) d₁ = .ok d₁' ∧
      ms.foldlM (stepMapping controls attackdata) d₂ = .ok d₂' ∧ DictR d₁' d₂') := by
  induction ms generalizing d₁ d₂ with
  | nil => exact Or.inr ⟨d₁, d₂, rfl, rfl, h⟩
  | cons m ms ih =>
    rcases DictR_stepMapping controls attackdata m d₁ d₂ h with
      ⟨e, h₁, h₂⟩ | ⟨d₁', d₂', h₁, h₂, hR⟩
    · refine Or.inl ⟨e, ?_, ?_⟩
      · rw [List.foldlM_cons, h₁, except_bind_error]
      · rw [List.foldlM_cons, h₂, except_bind_error]
    · rcases ih d₁' d₂' hR with ⟨e, he₁, he₂⟩ | ⟨e₁, e₂, he₁, he₂, hRR⟩
      · refine Or.inl ⟨e, ?_, ?_⟩
        · rw [List.foldlM_cons, h₁, except_bind_ok]
          exact he₁
        · rw [List.foldlM_cons, h₂, except_bind_ok]
          exact he₂
      · refine Or.inr ⟨e₁, e₂, ?_, ?_, hRR⟩
        · rw [List.foldlM_cons, h₁, except_bind_ok]
          exact he₁
        · rw [List.foldlM_cons, h₂, except_bind_ok]
          exact he₂

theorem dedup_perm_of_memEq (v₁ v₂ : List String) (h : MemEqLists v₁ v₂) :
    List.Perm v₁.dedup v₂.dedup := by
  rw [List.perm_ext_iff_of_nodup (List.nodup_dedup v₁) (List.nodup_dedup v₂)]
  intro a
  rw [List.mem_dedup, List.mem_dedup]
  exact h a

theorem sortStrings_eq_of_perm (l₁ l₂ : List String) (h : List.Perm l₁ l₂) :
    sortStrings l₁ = sortStrings l₂ :=
  @List.eq_of_perm_of_sorted String strLe ⟨strLe_antisymm⟩ _ _
    ((sortStrings_perm l₁).trans (h.trans (sortStrings_perm l₂).symm))
    (sortStrings_sorted l₁) (sortStrings_sorted l₂)

theorem technique_eq_of_memEq (k : String) (v₁ v₂ : List String)
    (h : MemEqLists v₁ v₂) : technique k v₁.dedup = technique k v₂.dedup := by
  have hperm := dedup_perm_of_memEq v₁ v₂ h
  unfold technique
  rw [hperm.length_eq, sortStrings_eq_of_perm _ _ hperm]

theorem techniques_eq_of_DictR (d₁ d₂ : List (String × List String))
    (h : DictR d₁ d₂) :
    d₁.map (fun kv => technique kv.1 kv.2.dedup) =
      d₂.map (fun kv => technique kv.1 kv.2.dedup) := by
  induction d₁ generalizing d₂ with
  | nil =>
    cases d₂ with
    | nil => rfl
    | cons kv rest => exact absurd h (by simp [DictR])
  | cons kv₁ r₁ ih =>
    obtain ⟨k₁, v₁⟩ := kv₁
    cases d₂ with
    | nil => exact absurd h (by simp [DictR])
    | cons kv₂ r₂ =>
      obtain ⟨k₂, v₂⟩ := kv₂
      obtain ⟨hk, hv, hr⟩ := h
      subst hk
      simp only [List.map_cons]
      rw [technique_eq_of_memEq k₁ v₁ v₂ hv, ih r₂ hr]

theorem mem_dictGet_of_step (controls attackdata : List SDO)
    (d d' : List (String × List String)) (m : Relationship)
    (h : stepMapping controls attackdata d m = .ok d') (k x : String)
    (hx : x ∈ dictGet d k) : x ∈ dictGet d' k := by
  unfold stepMapping at h
  cases hsg : storeGet controls m.source_ref with
  | none =>
    simp only [hsg] at h
    cases h
    exact hx
  | some c =>
    simp only [hsg] at h
    cases htg : storeGet attackdata m.target_ref with
    | none =>
      simp only [htg] at h
      exact Except.noConfusion h
    | some t =>
      simp only [htg] at h
      cases h
      exact (mem_dictGet_dictAdd d k t.external_id c.external_id x).2 (Or.inl hx)

theorem mem_dictGet_of_foldlM (controls attackdata : List SDO)
    (ms : List Relationship) (d d' : List (String × List String))
    (h : ms.foldlM (stepMapping controls attackdata) d = .ok d') (k x : String)
    (hx : x ∈ dictGet d k) : x ∈ dictGet d' k := by
  induction ms generalizing d with
  | nil =>
    cases h
    exact hx
  | cons m ms ih =>
    rw [List.foldlM_cons] at h
    cases hstep : stepMapping controls attackdata d m with
    | error e =>
      rw [hstep, except_bind_error] at h
      cases h
    | ok d₁ =>
      rw [hstep, except_bind_ok] at h
      exact ih d₁ h (mem_dictGet_of_step controls attackdata d d₁ m hstep k x hx)

theorem target_some_of_processed (controls attackdata : List SDO)
    (l₁ : List Relationship) (m : Relationship) (hm : m ∈ l₁) (c : SDO)
    (hc : storeGet controls m.source_ref = some c)
    (d : List (String × List String))
    (h : l₁.foldlM (stepMapping controls attackdata) [] = .ok d) :
    ∃ t, storeGet attackdata m.target_ref = some t := by
  obtain ⟨p, q, rfl⟩ := List.append_of_mem hm
  rw [List.foldlM_append] at h
  cases hp : p.foldlM (stepMapping controls attackdata) [] with
  | error e =>
    rw [hp, except_bind_error] at h
    cases h
  | ok d₀ =>
    rw [hp, except_bind_ok, List.foldlM_cons] at h
    cases htg : storeGet attackdata m.target_ref with
    | none =>
      exfalso
      have hstep : stepMapping controls attackdata d₀ m =
          .error (.unresolvedTechnique m.target_ref) := by
        unfold stepMapping
        rw [hc, htg]
      rw [hstep, except_bind_error] at h
      cases h
    | some t => exact ⟨t, rfl⟩

theorem mem_dict_of_processed (controls attackdata : List SDO)
    (l₁ : List Relationship) (m : Relationship) (hm : m ∈ l₁) (c t : SDO)
    (hc : storeGet controls m.source_ref = some c)
    (ht : storeGet attackdata m.target_ref = some t)
    (d : List (String × List String))
    (h : l₁.foldlM (stepMapping controls attackdata) [] = .ok d) :
    c.external_id ∈ dictGet d t.external_id := by
  obtain ⟨p, q, rfl⟩ := List.append_of_mem hm
  rw [List.foldlM_append] at h
  cases hp : p.foldlM (stepMapping controls attackdata) [] with
  | error e =>
    rw [hp, except_bind_error] at h
    cases h
  | ok d₀ =>
    rw [hp, except_bind_ok, List.foldlM_cons] at h
    have hstep : stepMapping controls attackdata d₀ m =
        .ok (dictAdd d₀ t.external_id c.external_id) := by
      unfold stepMapping
      rw [hc, ht]
    rw [hstep, except_bind_ok] at h
    exact mem_dictGet_of_foldlM controls attackdata q _ d h t.external_id c.external_id
      ((mem_dictGet_dictAdd d₀ t.external_id t.external_id c.external_id
        c.external_id).2 (Or.inr ⟨rfl, rfl⟩))

/-- C3: the score of a technique counts each contributing control once: a
second relationship record between the same (control, technique) pair — a
duplicate mapping edge, inserted anywhere after the original — leaves the
scored technique list unchanged, because contributing control ids are
deduplicated before counting. -/
theorem toTechniquelist_duplicate_invariant (controls attackdata : List SDO)
    (l₁ l₂ : List Relationship) (m m' : Relationship) (hm : m ∈ l₁)
    (hs : m'.source_ref = m.source_ref) (ht : m'.target_ref = m.target_ref) :
    toTechniquelist controls (l₁ ++ m' :: l₂) attackdata =
      toTechniquelist controls (l₁ ++ l₂) attackdata := by
  unfold toTechniquelist
  rw [List.foldlM_append, List.foldlM_append]
  cases h₁ : l₁.foldlM (stepMapping controls attackdata) [] with
  | error e =>
    simp only [except_bind_error]
  | ok d =>
    simp only [except_bind_ok]
    rw [List.foldlM_cons]
    cases hcg : storeGet controls m'.source_ref with
    | none =>
      have hstep : stepMapping controls attackdata d m' = .ok d := by
        unfold stepMapping
        rw [hcg]
      rw [hstep, except_bind_ok]
    | some c =>
      rw [hs] at hcg
      obtain ⟨t, htg⟩ := target_some_of_processed controls attackdata l₁ m hm c hcg d h₁
      have hstep : stepMapping controls attackdata d m' =
          .ok (dictAdd d t.external_id c.external_id) := by
        unfold stepMapping
        rw [hs, ht, hcg, htg]
      rw [hstep, except_bind_ok]
      have hmem : c.external_id ∈ dictGet d t.external_id :=
        mem_dict_of_processed controls attackdata l₁ m hm c t hcg htg d h₁
      have hR : DictR (dictAdd d t.external_id c.external_id) d :=
        DictR_dictAdd_self d t.external_id c.external_id hmem
      rcases DictR_foldlM controls attackdata l₂ _ _ hR with
        ⟨e, he₁, he₂⟩ | ⟨d₁', d₂', hd₁, hd₂, hRR⟩
      · rw [he₁, he₂]
      · rw [hd₁, hd₂]
        simp only [except_bind_ok]
        rw [techniques_eq_of_DictR d₁' d₂' hRR]

theorem toTechniquelist_duplicate_invariant_witness :
    toTechniquelist exControls
        ([{ source_ref := "course-of-action--1", target_ref := "attack-pattern--1"
            relationship_type := "mitigates" }] ++
          [{ source_ref := "course-of-action--1", target_ref := "attack-pattern--1"
             relationship_type := "related-to" }] ++ []) exAttack =
      toTechniquelist exControls
        ([{ source_ref := "course-of-action--1", target_ref := "attack-pattern--1"
            relationship_type := "mitigates" }] ++ []) exAttack :=
  toTechniquelist_duplicate_invariant exControls exAttack
    [{ source_ref := "course-of-action--1", target_ref := "attack-pattern--1"
       relationship_type := "mitigates" }] []
    { source_ref := "course-of-action--1", target_ref := "attack-pattern--1"
      relationship_type := "mitigates" }
    { source_ref := "course-of-action--1", target_ref := "attack-pattern--1"
      relationship_type := "related-to" }
    (List.mem_cons_self _ _) rfl rfl
